import Mathlib

/-!
Verification of the byte-scaling core of `fits2image.py`.

The two functions with numerically meaningful behaviour, `bytescale` and
`array2image`, are embedded shallowly.  A numpy `ndarray` becomes a `Tensor`:
a shape list, a dtype marker (the code only branches on "is it uint8"), and a
row-major flat list of rational samples.  Floating-point arithmetic of the
source is modelled by exact rational arithmetic; `astype(np.uint8)` becomes
truncation toward zero followed by reduction modulo 256.  The in-place
clipping (`data[data < cmin] = cmin`, `data[data > cmax] = cmax`) mutates the
caller's array, so `bytescaleS` returns a pair: the final contents of the
caller's array and the function's result (`Except` models `raise ValueError`).
-/

namespace Fits2Image

/-- Element-type marker of an ndarray: the source only distinguishes
`np.uint8` from everything else (line 58 of `fits2image.py`). -/
inductive DType
  | uint8
  | float64
deriving DecidableEq, Repr

/-- A numpy ndarray: shape, dtype and the elements flattened row-major. -/
structure Tensor where
  shape : List ℕ
  dtype : DType
  flat : List ℚ
deriving DecidableEq, Repr

/-- The distinct `raise ValueError(...)` sites of the source, plus the shape
check of `array2image`. -/
inductive ScaleErr
  | highTooBig
  | lowTooSmall
  | highLtLow
  | cmaxLtCmin
  | shapeNot2D
deriving DecidableEq, Repr

/-- The spec classifies every bound-related failure as a `RangeError` and the
dimensionality failure as a `ShapeError`. -/
def ScaleErr.isRange : ScaleErr → Bool
  | .shapeNot2D => false
  | _ => true

/-- True when the computation failed with one of the range errors. -/
def isRangeErrorResult : Except ScaleErr Tensor → Bool
  | .error e => e.isRange
  | .ok _ => false

/-- Models `data.min()`: minimum of all elements.  numpy raises on a
zero-size reduction; the model returns 0 there, a case no claim exercises. -/
def amin : List ℚ → ℚ
  | [] => 0
  | x :: xs => xs.foldl min x

/-- Models `data.max()`: maximum of all elements (0 on the empty list). -/
def amax : List ℚ → ℚ
  | [] => 0
  | x :: xs => xs.foldl max x

/-- The two in-place clip assignments applied to one element, in source
order: first values below `cmin` are raised to `cmin`, then values above
`cmax` are lowered to `cmax`. -/
def clipElem (cmin cmax v : ℚ) : ℚ :=
  let v1 := if v < cmin then cmin else v
  if v1 > cmax then cmax else v1

/-- Truncation toward zero, the rounding of a C-style float-to-integer
cast (`astype`). -/
def ratTrunc (q : ℚ) : ℤ :=
  if q < 0 then -⌊-q⌋ else ⌊q⌋

/-- Models `ndarray.clip(lo, hi)` on one element (for `lo ≤ hi`):
`min(hi, max(lo, x))`. -/
def rclip (lo hi x : ℚ) : ℚ :=
  min hi (max lo x)

/-- Models `astype(np.uint8)` on one float element: truncate toward zero,
reduce modulo 256. -/
def toUint8 (q : ℚ) : ℕ :=
  ((ratTrunc q) % 256).toNat

/-- `cscale` after the degenerate-range substitution of lines 83–87:
`cmax - cmin`, replaced by 1 when it is zero. -/
def cscaleOf (cmin cmax : ℚ) : ℚ :=
  if cmax - cmin = 0 then 1 else cmax - cmin

/-- The multiplier `scale = float(high - low) / cscale` of line 89. -/
def scaleOf (cmin cmax : ℚ) (low high : ℤ) : ℚ :=
  ((high : ℚ) - (low : ℚ)) / cscaleOf cmin cmax

/-- Lines 90–91 applied to one (already clipped) element: the linear map,
`clip(low, high)`, add `0.5`, cast to uint8. -/
def elemScale (cmin scale : ℚ) (low high : ℤ) (v : ℚ) : ℕ :=
  toUint8 (rclip (low : ℚ) (high : ℚ) ((v - cmin) * scale + (low : ℚ)) + 1 / 2)

/-- `bytescale(data, cmin, cmax, high, low)` of lines 58–91, with the
in-place mutation made explicit: the first component of the result is the
final contents of the caller's array (clipped in place once control reaches
line 80), the second is the returned value or the raised error. -/
def bytescaleS (data : Tensor) (cmin? cmax? : Option ℚ) (high low : ℤ) :
    Tensor × Except ScaleErr Tensor :=
  if data.dtype = DType.uint8 then (data, .ok data)
  else if high > 255 then (data, .error .highTooBig)
  else if low < 0 then (data, .error .lowTooSmall)
  else if high < low then (data, .error .highLtLow)
  else
    let min_data := amin data.flat
    let max_data := amax data.flat
    let cmin := cmin?.getD min_data
    let cmax := cmax?.getD max_data
    let clipped : Tensor := { data with flat := data.flat.map (clipElem cmin cmax) }
    if cmax - cmin < 0 then (clipped, .error .cmaxLtCmin)
    else
      let scale := scaleOf cmin cmax low high
      (clipped,
        .ok { shape := data.shape, dtype := DType.uint8,
              flat := clipped.flat.map (fun v => ((elemScale cmin scale low high v : ℕ) : ℚ)) })

/-- The value `bytescale` returns (or the error it raises), discarding the
state of the caller's array. -/
def bytescale (data : Tensor) (cmin? cmax? : Option ℚ) (high low : ℤ) :
    Except ScaleErr Tensor :=
  (bytescaleS data cmin? cmax? high low).2

/-- The object `Image.frombytes('L', shape, bytes)` wraps: mode, declared
width and height, and the flat pixel byte sequence. -/
structure ImageBuf where
  mode : String
  width : ℕ
  height : ℕ
  pixels : List ℚ
deriving DecidableEq, Repr

/-- `array2image(data, smin, smax)` of lines 94–127: rank check, dimension
swap (`columns show up first`), delegation to `bytescale` with
`high=255, low=0, cmin=smin, cmax=smax`, and wrapping of the row-major
byte string. -/
def array2image (data : Tensor) (smin smax : Option ℚ) : Except ScaleErr ImageBuf :=
  if data.shape.length ≠ 2 then .error .shapeNot2D
  else
    (bytescale data smin smax 255 0).map fun b =>
      { mode := "L", width := data.shape.getD 1 0, height := data.shape.getD 0 0,
        pixels := b.flat }

/-- The two sequential clip assignments amount to clamping into
`[cmin, cmax]` written with `min`/`max` (for `cmax < cmin` both collapse to
`cmax`, because the first assignment raises everything to at least `cmin`). -/
lemma clipElem_eq (cmin cmax v : ℚ) : clipElem cmin cmax v = min cmax (max cmin v) := by
  simp only [clipElem, min_def, max_def, gt_iff_lt]
  split_ifs <;> linarith

lemma foldl_min_le (x : ℚ) (l : List ℚ) : l.foldl min x ≤ x := by
  induction l generalizing x with
  | nil => exact le_refl x
  | cons y ys ih => exact le_trans (ih (min x y)) (min_le_left x y)

lemma le_foldl_max (x : ℚ) (l : List ℚ) : x ≤ l.foldl max x := by
  induction l generalizing x with
  | nil => exact le_refl x
  | cons y ys ih => exact le_trans (le_max_left x y) (ih (max x y))

/-- The defaulted clip bounds derived from the same array are ordered:
`data.min() ≤ data.max()`. -/
lemma amin_le_amax (l : List ℚ) : amin l ≤ amax l := by
  cases l with
  | nil => exact le_refl 0
  | cons x xs => exact le_trans (foldl_min_le x xs) (le_foldl_max x xs)

/-- Evaluation of one output element under valid output bounds: the uint8
cast is the floor of the clipped-and-shifted value, and that floor stays in
`[low, high]`. -/
lemma elemScale_intCast (cmin s : ℚ) (low high : ℤ) (v : ℚ)
    (h0 : 0 ≤ low) (hlh : low ≤ high) (h255 : high ≤ 255) :
    ((elemScale cmin s low high v : ℕ) : ℤ)
        = ⌊rclip (low : ℚ) (high : ℚ) ((v - cmin) * s + (low : ℚ)) + 1 / 2⌋ ∧
      low ≤ ((elemScale cmin s low high v : ℕ) : ℤ) ∧
      ((elemScale cmin s low high v : ℕ) : ℤ) ≤ high := by
  set y := rclip (low : ℚ) (high : ℚ) ((v - cmin) * s + (low : ℚ)) with hy
  have hlo : (low : ℚ) ≤ y := by
    rw [hy, rclip]
    exact le_min (by exact_mod_cast hlh) (le_max_left _ _)
  have hk1 : low ≤ ⌊y + 1 / 2⌋ := by
    apply Int.le_floor.mpr
    linarith
  have hk2 : ⌊y + 1 / 2⌋ ≤ high := by
    have hmono : ⌊y + 1 / 2⌋ ≤ ⌊(high : ℚ) + 1 / 2⌋ := by
      apply Int.floor_le_floor
      have : y ≤ (high : ℚ) := min_le_left _ _
      linarith
    have hfl : ⌊(high : ℚ) + 1 / 2⌋ = high := by
      rw [Int.floor_int_add]
      norm_num
    omega
  have htr : ratTrunc (y + 1 / 2) = ⌊y + 1 / 2⌋ := by
    rw [ratTrunc, if_neg]
    have h0q : (0 : ℚ) ≤ (low : ℚ) := by exact_mod_cast h0
    intro hcon
    linarith
  have hmod : ⌊y + 1 / 2⌋ % 256 = ⌊y + 1 / 2⌋ := by
    apply Int.emod_eq_of_lt (le_trans h0 hk1)
    omega
  have hval : ((elemScale cmin s low high v : ℕ) : ℤ) = ⌊y + 1 / 2⌋ := by
    rw [elemScale, toUint8, ← hy, htr, hmod]
    exact Int.toNat_of_nonneg (le_trans h0 hk1)
  exact ⟨hval, hval ▸ hk1, hval ▸ hk2⟩

/-- C1: on the 3x3 array `[[91.07,3.39,84.42],[73.88,80.91,4.89],[51.54,34.46,27.59]]`
with no explicit clip bounds and the default `low=0, high=255`, `bytescale`
returns exactly `[[255,0,236],[205,225,4],[140,90,70]]`. -/
theorem bytescale_concrete_scenario1 :
    bytescale
      ⟨[3, 3], DType.float64,
        [91.07, 3.39, 84.42, 73.88, 80.91, 4.89, 51.54, 34.46, 27.59]⟩
      none none 255 0
      = .ok ⟨[3, 3], DType.uint8, [255, 0, 236, 205, 225, 4, 140, 90, 70]⟩ := by
  simp only [bytescale, bytescaleS, amin, amax, scaleOf, cscaleOf, clipElem, elemScale,
    toUint8, ratTrunc, rclip, List.foldl, List.map, Option.getD]
  norm_num
  rfl

/-- C2 counterexample: the claim quantifies over every 2D array, but a uint8
array takes the fast path of line 58 untouched: with the valid bounds
`low = 0, high = 100` the returned array keeps its element 200, outside
`[0, 100]`. -/
theorem bytescale_uint8_output_escapes_bounds :
    bytescale ⟨[1, 1], DType.uint8, [200]⟩ none none 100 0
        = .ok ⟨[1, 1], DType.uint8, [200]⟩ ∧
      ¬ ((200 : ℚ) ≤ 100) :=
  ⟨rfl, by norm_num⟩

/-- C2 (amended to arrays whose dtype is not uint8): whenever `bytescale`
returns an array under valid output bounds `0 ≤ low ≤ high ≤ 255`, every
element of that array lies in `[low, high]`. -/
theorem bytescale_output_in_bounds (t : Tensor) (c1 c2 : Option ℚ) (high low : ℤ)
    (hdt : t.dtype ≠ DType.uint8) (h0 : 0 ≤ low) (hlh : low ≤ high) (h255 : high ≤ 255)
    (b : Tensor) (hok : bytescale t c1 c2 high low = .ok b) :
    ∀ x ∈ b.flat, (low : ℚ) ≤ x ∧ x ≤ (high : ℚ) := by
  unfold bytescale bytescaleS at hok
  rw [if_neg hdt, if_neg (not_lt.mpr h255), if_neg (not_lt.mpr h0),
    if_neg (not_lt.mpr hlh)] at hok
  simp only at hok
  split at hok
  · simp at hok
  · simp only [Except.ok.injEq] at hok
    subst hok
    intro x hx
    simp only [List.map_map, List.mem_map, Function.comp] at hx
    obtain ⟨v, _, rfl⟩ := hx
    obtain ⟨-, hb1, hb2⟩ :=
      elemScale_intCast _ _ low high (clipElem _ _ v) h0 hlh h255
    constructor
    · exact_mod_cast hb1
    · exact_mod_cast hb2

/-- C2 witness: a concrete non-uint8 run of the amended theorem; the single
output element 10 of `bytescale([[50]], low=10, high=100)` satisfies
`10 ≤ 10 ≤ 100`. -/
theorem bytescale_output_in_bounds_witness :
    ((10 : ℤ) : ℚ) ≤ 10 ∧ (10 : ℚ) ≤ ((100 : ℤ) : ℚ) := by
  have h := bytescale_output_in_bounds ⟨[1, 1], DType.float64, [50]⟩ none none 100 10
    (by decide) (by decide) (by decide) (by decide)
    ⟨[1, 1], DType.uint8, [10]⟩
    (by
      simp only [bytescale, bytescaleS, amin, amax, scaleOf, cscaleOf, clipElem, elemScale,
        toUint8, ratTrunc, rclip, List.foldl, List.map, Option.getD]
      norm_num
      rfl)
    10 (by simp)
  simpa using h

/-- C3: a uint8 array is returned unchanged, whatever `cmin`, `cmax`,
`high`, `low` are supplied — the fast path of line 58 fires before any
check, clip or rescale, and the caller's array is not touched either. -/
theorem bytescale_uint8_identity (t : Tensor) (c1 c2 : Option ℚ) (high low : ℤ)
    (h : t.dtype = DType.uint8) :
    bytescaleS t c1 c2 high low = (t, .ok t) := by
  rw [bytescaleS, if_pos h]

/-- C3 witness: a concrete uint8 array with explicit clip bounds (and even
invalid output bounds) passes through unchanged. -/
theorem bytescale_uint8_identity_witness :
    bytescaleS ⟨[1, 2], DType.uint8, [7, 300]⟩ (some 3) (some 9) 300 (-2)
      = (⟨[1, 2], DType.uint8, [7, 300]⟩, .ok ⟨[1, 2], DType.uint8, [7, 300]⟩) :=
  bytescale_uint8_identity ⟨[1, 2], DType.uint8, [7, 300]⟩ (some 3) (some 9) 300 (-2) rfl

/-- C4: when the effective clip bounds coincide (explicitly supplied or
derived from a constant array), `bytescale` does not fail: clipping sends
every element to the common bound, the substituted unit `cscale` keeps the
division defined, and every output element is exactly `low`. -/
theorem bytescale_degenerate_range (t : Tensor) (c1 c2 : Option ℚ) (high low : ℤ)
    (hdt : t.dtype ≠ DType.uint8) (h0 : 0 ≤ low) (hlh : low ≤ high) (h255 : high ≤ 255)
    (hdeg : c1.getD (amin t.flat) = c2.getD (amax t.flat)) :
    bytescale t c1 c2 high low
      = .ok ⟨t.shape, DType.uint8, t.flat.map (fun _ => ((low : ℤ) : ℚ))⟩ := by
  have key : ∀ v : ℚ,
      ((elemScale (c1.getD (amin t.flat)) (scaleOf (c1.getD (amin t.flat))
          (c1.getD (amin t.flat)) low high) low high
          (clipElem (c1.getD (amin t.flat)) (c1.getD (amin t.flat)) v) : ℕ) : ℚ)
        = ((low : ℤ) : ℚ) := by
    intro v
    set m := c1.getD (amin t.flat) with hm
    have hclip : clipElem m m v = m := by
      rw [clipElem_eq]
      exact min_eq_left (le_max_left m v)
    rw [hclip]
    obtain ⟨hval, -, -⟩ :=
      elemScale_intCast m (scaleOf m m low high) low high m h0 hlh h255
    have hlow : ((elemScale m (scaleOf m m low high) low high m : ℕ) : ℤ) = low := by
    -- the linear map sends the common bound to `low`, which survives the
    -- clip and the half-up rounding untouched
      rw [hval, sub_self, zero_mul, zero_add, rclip, max_self,
        min_eq_right (by exact_mod_cast hlh : (low : ℚ) ≤ (high : ℚ)),
        Int.floor_int_add]
      norm_num
    exact_mod_cast hlow
  unfold bytescale bytescaleS
  rw [if_neg hdt, if_neg (not_lt.mpr h255), if_neg (not_lt.mpr h0),
    if_neg (not_lt.mpr hlh)]
  simp only
  rw [← hdeg, sub_self, if_neg (lt_irrefl 0)]
  simp only [List.map_map, Except.ok.injEq, Tensor.mk.injEq, true_and]
  exact List.map_congr_left fun v _ => key v

/-- C4 witness: the constant 2x2 array `[[5,5],[5,5]]` with no explicit
bounds maps to `[[0,0],[0,0]]`. -/
theorem bytescale_degenerate_range_witness :
    bytescale ⟨[2, 2], DType.float64, [5, 5, 5, 5]⟩ none none 255 0
      = .ok ⟨[2, 2], DType.uint8, [0, 0, 0, 0]⟩ := by
  have h := bytescale_degenerate_range ⟨[2, 2], DType.float64, [5, 5, 5, 5]⟩ none none 255 0
    (by decide) (by decide) (by decide) (by decide) (by decide)
  simpa using h

/-- C5 counterexample: the claim quantifies over every input array, but a
uint8 array returns through the fast path of line 58 before the bound
checks run: `high = 300 > 255` raises nothing. -/
theorem bytescale_uint8_skips_range_checks :
    bytescale ⟨[1, 1], DType.uint8, [0]⟩ none none 300 0
        = .ok ⟨[1, 1], DType.uint8, [0]⟩ ∧
      (255 : ℤ) < 300 :=
  ⟨rfl, by norm_num⟩

/-- C5 (amended to arrays whose dtype is not uint8): `bytescale` fails with
a RangeError whenever `high > 255`, `low < 0` or `high < low`. -/
theorem bytescale_invalid_output_bounds (t : Tensor) (c1 c2 : Option ℚ) (high low : ℤ)
    (hdt : t.dtype ≠ DType.uint8) (hbad : 255 < high ∨ low < 0 ∨ high < low) :
    isRangeErrorResult (bytescale t c1 c2 high low) = true := by
  unfold bytescale bytescaleS
  rw [if_neg hdt]
  by_cases h1 : 255 < high
  · rw [if_pos h1]; rfl
  · rw [if_neg h1]
    by_cases h2 : low < 0
    · rw [if_pos h2]; rfl
    · rw [if_neg h2]
      by_cases h3 : high < low
      · rw [if_pos h3]; rfl
      · rcases hbad with h | h | h
        · exact absurd h h1
        · exact absurd h h2
        · exact absurd h h3

/-- C5 witness: a concrete non-uint8 call with `high = 300` fails with a
RangeError. -/
theorem bytescale_invalid_output_bounds_witness :
    isRangeErrorResult (bytescale ⟨[1, 1], DType.float64, [0]⟩ none none 300 0) = true :=
  bytescale_invalid_output_bounds ⟨[1, 1], DType.float64, [0]⟩ none none 300 0
    (by decide) (Or.inl (by decide))

/-- C6 counterexample: the claim quantifies over every input array, but a
uint8 array returns through the fast path of line 58 even when the supplied
clip bounds are inverted (`cmax = 1 < 5 = cmin`): no error is raised. -/
theorem bytescale_uint8_skips_clip_check :
    bytescale ⟨[1, 1], DType.uint8, [0]⟩ (some 5) (some 1) 255 0
        = .ok ⟨[1, 1], DType.uint8, [0]⟩ ∧
      (1 : ℚ) < 5 :=
  ⟨rfl, by norm_num⟩

/-- C6 (amended to arrays whose dtype is not uint8): whenever the effective
`cmax` (after defaulting to the array maximum) is strictly below the
effective `cmin`, `bytescale` fails with a RangeError; and the derived
defaults themselves always satisfy `min ≤ max`, so the situation needs an
explicitly supplied bound. -/
theorem bytescale_clip_order_error :
    (∀ (t : Tensor) (c1 c2 : Option ℚ) (high low : ℤ), t.dtype ≠ DType.uint8 →
        c2.getD (amax t.flat) < c1.getD (amin t.flat) →
        isRangeErrorResult (bytescale t c1 c2 high low) = true) ∧
      ∀ l : List ℚ, amin l ≤ amax l := by
  constructor
  · intro t c1 c2 high low hdt hlt
    unfold bytescale bytescaleS
    rw [if_neg hdt]
    by_cases h1 : (255 : ℤ) < high
    · rw [if_pos h1]; rfl
    · rw [if_neg h1]
      by_cases h2 : low < 0
      · rw [if_pos h2]; rfl
      · rw [if_neg h2]
        by_cases h3 : high < low
        · rw [if_pos h3]; rfl
        · rw [if_neg h3]
          simp only
          rw [if_pos (sub_neg.mpr hlt)]
          rfl
  · exact amin_le_amax

/-- C6 witness: a concrete non-uint8 call with inverted explicit bounds
fails with a RangeError, and a concrete derived pair is ordered. -/
theorem bytescale_clip_order_error_witness :
    isRangeErrorResult
        (bytescale ⟨[1, 1], DType.float64, [0]⟩ (some 5) (some 1) 255 0) = true ∧
      amin [(3 : ℚ), 7] ≤ amax [(3 : ℚ), 7] :=
  ⟨bytescale_clip_order_error.1 ⟨[1, 1], DType.float64, [0]⟩ (some 5) (some 1) 255 0
      (by decide) (by decide),
    bytescale_clip_order_error.2 [(3 : ℚ), 7]⟩

/-- C7: with fixed valid bounds, the per-element transform of lines 80–91
(in-place clip, linear map with the substituted `cscale`, output clip,
half-up rounding, uint8 cast) is monotone in the input sample. -/
theorem elemScale_monotone (cmin cmax : ℚ) (low high : ℤ) (a b : ℚ)
    (h0 : 0 ≤ low) (hlh : low ≤ high) (h255 : high ≤ 255) (hc : cmin ≤ cmax)
    (hab : a ≤ b) :
    elemScale cmin (scaleOf cmin cmax low high) low high (clipElem cmin cmax a)
      ≤ elemScale cmin (scaleOf cmin cmax low high) low high (clipElem cmin cmax b) := by
  have hlq : (low : ℚ) ≤ (high : ℚ) := by exact_mod_cast hlh
  have hs : 0 ≤ scaleOf cmin cmax low high := by
    rw [scaleOf, cscaleOf]
    split_ifs with h
    · rw [div_one]
      linarith
    · exact div_nonneg (by linarith) (sub_nonneg.mpr hc)
  have hclip : clipElem cmin cmax a ≤ clipElem cmin cmax b := by
    rw [clipElem_eq, clipElem_eq]
    exact min_le_min le_rfl (max_le_max le_rfl hab)
  set s := scaleOf cmin cmax low high
  set ca := clipElem cmin cmax a
  set cb := clipElem cmin cmax b
  have hlin : (ca - cmin) * s + (low : ℚ) ≤ (cb - cmin) * s + (low : ℚ) := by
    have := mul_le_mul_of_nonneg_right (sub_le_sub_right hclip cmin) hs
    linarith
  have hr : rclip (low : ℚ) (high : ℚ) ((ca - cmin) * s + (low : ℚ))
      ≤ rclip (low : ℚ) (high : ℚ) ((cb - cmin) * s + (low : ℚ)) := by
    rw [rclip, rclip]
    exact min_le_min le_rfl (max_le_max le_rfl hlin)
  obtain ⟨hva, -, -⟩ := elemScale_intCast cmin s low high ca h0 hlh h255
  obtain ⟨hvb, -, -⟩ := elemScale_intCast cmin s low high cb h0 hlh h255
  have hmono : ((elemScale cmin s low high ca : ℕ) : ℤ)
      ≤ ((elemScale cmin s low high cb : ℕ) : ℤ) := by
    rw [hva, hvb]
    exact Int.floor_le_floor (by linarith)
  exact_mod_cast hmono

/-- C7 witness: a concrete ordered pair of samples `3 ≤ 7` under bounds
`cmin = 0, cmax = 10, low = 0, high = 255` keeps its order. -/
theorem elemScale_monotone_witness :
    elemScale 0 (scaleOf 0 10 0 255) 0 255 (clipElem 0 10 3)
      ≤ elemScale 0 (scaleOf 0 10 0 255) 0 255 (clipElem 0 10 7) :=
  elemScale_monotone 0 10 0 255 3 7 (by decide) (by decide) (by decide) (by decide)
    (by decide)

/-- Every error `bytescale` can raise is a bound error; the shape error
belongs to `array2image` alone. -/
lemma bytescale_ne_shape_error (t : Tensor) (c1 c2 : Option ℚ) (high low : ℤ) :
    bytescale t c1 c2 high low ≠ .error .shapeNot2D := by
  unfold bytescale bytescaleS
  simp only
  split_ifs <;> simp

/-- C8: `array2image` raises the shape error exactly on inputs whose rank
is not 2 — every other-rank array is rejected, and no rank-2 array ever
produces a shape error (its only possible failures are the bound errors of
`bytescale`). -/
theorem array2image_shape_check (t : Tensor) (smin smax : Option ℚ) :
    (t.shape.length ≠ 2 → array2image t smin smax = .error .shapeNot2D) ∧
      (t.shape.length = 2 → array2image t smin smax ≠ .error .shapeNot2D) := by
  constructor
  · intro h
    rw [array2image, if_pos h]
  · intro h hcon
    rw [array2image, if_neg (fun hne => hne h)] at hcon
    cases heq : bytescale t smin smax 255 0 with
    | ok b =>
      rw [heq] at hcon
      simp [Except.map] at hcon
    | error e =>
      rw [heq] at hcon
      simp [Except.map] at hcon
      exact bytescale_ne_shape_error t smin smax 255 0 (hcon ▸ heq)

/-- C8 witness: a concrete 1D array is rejected with the shape error and a
concrete 2D array is not. -/
theorem array2image_shape_check_witness :
    array2image ⟨[3], DType.float64, [1, 2, 3]⟩ none none = .error .shapeNot2D ∧
      array2image ⟨[1, 1], DType.float64, [1]⟩ none none ≠ .error .shapeNot2D :=
  ⟨(array2image_shape_check ⟨[3], DType.float64, [1, 2, 3]⟩ none none).1 (by decide),
    (array2image_shape_check ⟨[1, 1], DType.float64, [1]⟩ none none).2 (by decide)⟩

/-- C9: on a rank-2 array of shape `(rows, cols)`, `array2image` is exactly
the delegation to `bytescale` with `cmin = smin, cmax = smax, low = 0,
high = 255`, wrapped with swapped, width-first declared dimensions
`(cols, rows)` and the row-major flattened scaled bytes. -/
theorem array2image_layout (r c : ℕ) (dt : DType) (flat : List ℚ) (smin smax : Option ℚ) :
    array2image ⟨[r, c], dt, flat⟩ smin smax
      = (bytescale ⟨[r, c], dt, flat⟩ smin smax 255 0).map
          (fun b => { mode := "L", width := c, height := r, pixels := b.flat }) := by
  rw [array2image, if_neg (by simp)]
  rfl

/-- C10: on a non-uint8 array with explicit, inverted clip bounds
(`cmax < cmin`) and valid output bounds, the in-place clip of lines 80–81
has already replaced the caller's array contents when the `cmax < cmin`
RangeError of line 85 is raised: the state component is the clipped array,
not the original. -/
theorem bytescaleS_clips_before_range_error (t : Tensor) (cmin cmax : ℚ) (high low : ℤ)
    (hdt : t.dtype ≠ DType.uint8) (h255 : high ≤ 255) (h0 : 0 ≤ low) (hlh : low ≤ high)
    (hlt : cmax < cmin) :
    bytescaleS t (some cmin) (some cmax) high low
      = ({ t with flat := t.flat.map (clipElem cmin cmax) }, .error .cmaxLtCmin) := by
  rw [bytescaleS]
  rw [if_neg hdt, if_neg (not_lt.mpr h255), if_neg (not_lt.mpr h0),
    if_neg (not_lt.mpr hlh)]
  simp only [Option.getD_some]
  rw [if_pos (sub_neg.mpr hlt)]

/-- C10 witness: calling with `cmin = 5 > 3 = cmax` on the array `[[1, 2]]`
raises the RangeError while leaving the caller's array mutated to
`[[3, 3]]`, which differs from the original. -/
theorem bytescaleS_clips_before_range_error_witness :
    bytescaleS ⟨[1, 2], DType.float64, [1, 2]⟩ (some 5) (some 3) 255 0
        = (⟨[1, 2], DType.float64, [3, 3]⟩, .error .cmaxLtCmin) ∧
      (⟨[1, 2], DType.float64, [3, 3]⟩ : Tensor) ≠ ⟨[1, 2], DType.float64, [1, 2]⟩ := by
  constructor
  · have h := bytescaleS_clips_before_range_error ⟨[1, 2], DType.float64, [1, 2]⟩ 5 3 255 0
      (by decide) (by decide) (by decide) (by decide) (by decide)
    rw [h]
    norm_num [clipElem]
  · decide

end Fits2Image
